import Mathlib

/-!
Verification development for the fatsecret-mcp repository.

The repository has two entry points that duplicate one OAuth 1.0a signing
engine: `src/cli.ts` (interactive console, class `FatSecretOAuthConsole`)
and `src/server.ts` (MCP server, class `FatSecretMCPServer`).  This file
embeds the relevant functions shallowly:

* JavaScript `Record<string, string>` objects are embedded as association
  lists `List (String × String)` in insertion order (keys unique);
  `Object.keys(o)` is the list of first components, `o[k]` is `List.lookup`.
* JavaScript's default `Array.prototype.sort()` compares strings by their
  UTF-16 code units; it is embedded as insertion sort with `jsLeStr`.
* `encodeURIComponent`, `JSON.parse`, `querystring.parse`, `new Date(...)`
  and Node's `crypto` HMAC-SHA1 are external builtins used by the source;
  they are embedded as executable Lean functions following their
  documented semantics.
* Methods of the two classes become functions; ambient state a method can
  reach (`this.config`, the nonce generator, the clock) is passed
  explicitly where the method uses it.
-/

/-- UTF-16 code units of one character (JavaScript string element order). -/
def charUtf16 (c : Char) : List Nat :=
  if c.toNat < 65536 then [c.toNat]
  else [55296 + (c.toNat - 65536) / 1024, 56320 + (c.toNat - 65536) % 1024]

/-- The UTF-16 code-unit sequence of a string, as JavaScript sees it. -/
def jsUnits (s : String) : List Nat :=
  (s.data.map charUtf16).flatten

/-- Strict lexicographic order on code-unit lists. -/
def listLtNat : List Nat → List Nat → Bool
  | [], [] => false
  | [], _ :: _ => true
  | _ :: _, [] => false
  | a :: as, b :: bs => if a < b then true else if b < a then false else listLtNat as bs

/-- JavaScript string comparison `s <= t` (by UTF-16 code units), the
relation realised by the default `Array.prototype.sort()` comparator. -/
def jsLeStr (s t : String) : Bool :=
  !(listLtNat (jsUnits t) (jsUnits s))

/-- Insert into a list in front of the first element that is `le`-above. -/
def insertLe (le : α → α → Bool) (x : α) : List α → List α
  | [] => [x]
  | y :: ys => if le x y then x :: y :: ys else y :: insertLe le x ys

/-- Insertion sort by a boolean `le`; with pairwise-distinct elements this
agrees with JavaScript's `Array.prototype.sort()`. -/
def sortLe (le : α → α → Bool) : List α → List α
  | [] => []
  | x :: xs => insertLe le x (sortLe le xs)

/-- UTF-8 bytes of one character. -/
def utf8Bytes (c : Char) : List Nat :=
  let n := c.toNat
  if n < 128 then [n]
  else if n < 2048 then [192 + n / 64, 128 + n % 64]
  else if n < 65536 then [224 + n / 4096, 128 + (n / 64) % 64, 128 + n % 64]
  else [240 + n / 262144, 128 + (n / 4096) % 64, 128 + (n / 64) % 64, 128 + n % 64]

/-- UTF-8 bytes of a whole string (what Node hashes or escapes). -/
def strBytes (s : String) : List Nat :=
  (s.data.map utf8Bytes).flatten

/-- Uppercase hexadecimal digit for a value below 16. -/
def hexDigitU (n : Nat) : Char :=
  if n < 10 then Char.ofNat (48 + n) else Char.ofNat (55 + n)

/-- A byte rendered as a percent escape `%XX` with uppercase hex. -/
def byteHexChars (b : Nat) : List Char :=
  ['%', hexDigitU (b / 16), hexDigitU (b % 16)]

/-- Characters `encodeURIComponent` leaves unescaped:
`A-Z a-z 0-9 - _ . ! ~ * ' ( )`. -/
def isUriUnreservedJs (c : Char) : Bool :=
  c.isAlpha || c.isDigit ||
    ['-', '_', '.', '!', '~', '*', '\'', '(', ')'].contains c

/-- `encodeURIComponent` on one character. -/
def encodeURIComponentChar (c : Char) : List Char :=
  if isUriUnreservedJs c then [c] else (utf8Bytes c).map byteHexChars |>.flatten

/-- The JavaScript builtin `encodeURIComponent`, character list level. -/
def encodeURIComponentList (cs : List Char) : List Char :=
  (cs.map encodeURIComponentChar).flatten

/-- The JavaScript builtin `encodeURIComponent`. -/
def encodeURIComponentStr (s : String) : String :=
  String.mk (encodeURIComponentList s.data)

/-- The characters the source additionally escapes after
`encodeURIComponent`: the regex class `[!'()*]`. -/
def bangChars : List Char := ['!', '\'', '(', ')', '*']

/-- `.replace(/[!'()*]/g, c => "%" + c.charCodeAt(0).toString(16).toUpperCase())`
applied to a character list (global single-character replacement). -/
def jsReplaceBangList (cs : List Char) : List Char :=
  (cs.map (fun c => if bangChars.contains c then byteHexChars c.toNat else [c])).flatten

/-- RFC 3986 unreserved characters: `A-Z a-z 0-9 - _ . ~`. -/
def isRfc3986Unreserved (c : Char) : Bool :=
  c.isAlpha || c.isDigit || ['-', '_', '.', '~'].contains c

/-- Strict RFC 3986 percent-encoding of one character (unreserved kept,
everything else escaped byte-wise). -/
def strictEncodeChar (c : Char) : List Char :=
  if isRfc3986Unreserved c then [c] else (utf8Bytes c).map byteHexChars |>.flatten

/-- Strict RFC 3986 percent-encoding of a character list. -/
def strictEncodeList (cs : List Char) : List Char :=
  (cs.map strictEncodeChar).flatten

/-- Value of a hexadecimal digit character, if it is one. -/
def hexVal? (c : Char) : Option Nat :=
  if 48 ≤ c.toNat ∧ c.toNat ≤ 57 then some (c.toNat - 48)
  else if 65 ≤ c.toNat ∧ c.toNat ≤ 70 then some (c.toNat - 55)
  else if 97 ≤ c.toNat ∧ c.toNat ≤ 102 then some (c.toNat - 87)
  else none

/-- A standard percent-decoder, byte level: `%XX` becomes the byte `XX`,
any other character contributes its code; malformed escapes are rejected. -/
def percentDecodeBytes : List Char → Option (List Nat)
  | [] => some []
  | c :: rest =>
    if c = '%' then
      match rest with
      | a :: b :: rest2 =>
        match hexVal? a, hexVal? b with
        | some ha, some hb => (percentDecodeBytes rest2).map (fun r => (ha * 16 + hb) :: r)
        | _, _ => none
      | _ => none
    else (percentDecodeBytes rest).map (fun r => c.toNat :: r)

/-- Reassemble ASCII bytes into characters (enough for the printable-ASCII
round-trip property; non-ASCII bytes are rejected). -/
def bytesToAscii : List Nat → Option (List Char)
  | [] => some []
  | b :: r => if b < 128 then (bytesToAscii r).map (fun cs => Char.ofNat b :: cs) else none

/-- A standard percent-decoder on strings (ASCII output). -/
def percentDecode (s : String) : Option String :=
  (percentDecodeBytes s.data).bind (fun bs => (bytesToAscii bs).map String.mk)

/-- `method.toUpperCase()` for the ASCII method names the source passes. -/
def jsToUpperCase (s : String) : String :=
  String.mk (s.data.map Char.toUpper)

namespace cli

/-- `percentEncode` from src/cli.ts lines 115-121:
`encodeURIComponent(str).replace(/[!'()*]/g, c => "%" + ...)`. -/
def percentEncode (str : String) : String :=
  String.mk (jsReplaceBangList (encodeURIComponentList str.data))

/-- `createSignatureBaseString` from src/cli.ts lines 123-140: raw keys are
sorted with the default `Array.prototype.sort()`, each pair is rendered as
`enc(key)=enc(value)` and joined with `&`, then method (uppercased),
encoded URL and encoded parameter string are joined with `&`. -/
def createSignatureBaseString (method url : String)
    (parameters : List (String × String)) : String :=
  let sortedParams := String.intercalate "&"
    ((sortLe jsLeStr (parameters.map Prod.fst)).map
      (fun key => percentEncode key ++ "=" ++ percentEncode ((parameters.lookup key).getD "")))
  jsToUpperCase method ++ "&" ++ percentEncode url ++ "&" ++ percentEncode sortedParams

/-- `createSigningKey` from src/cli.ts lines 142-149. -/
def createSigningKey (clientSecret : String) (tokenSecret : String := "") : String :=
  percentEncode clientSecret ++ "&" ++ percentEncode tokenSecret

end cli

namespace server

/-- `percentEncode` from src/server.ts lines 129-135 (verbatim duplicate of
the cli version). -/
def percentEncode (str : String) : String :=
  String.mk (jsReplaceBangList (encodeURIComponentList str.data))

/-- `createSignatureBaseString` from src/server.ts lines 137-154 (verbatim
duplicate of the cli version). -/
def createSignatureBaseString (method url : String)
    (parameters : List (String × String)) : String :=
  let sortedParams := String.intercalate "&"
    ((sortLe jsLeStr (parameters.map Prod.fst)).map
      (fun key => percentEncode key ++ "=" ++ percentEncode ((parameters.lookup key).getD "")))
  jsToUpperCase method ++ "&" ++ percentEncode url ++ "&" ++ percentEncode sortedParams

/-- `createSigningKey` from src/server.ts lines 156-163. -/
def createSigningKey (clientSecret : String) (tokenSecret : String := "") : String :=
  percentEncode clientSecret ++ "&" ++ percentEncode tokenSecret

end server

/-- Order on parameter pairs by raw key alone (JavaScript string order);
used to phrase pair-sorting formulations of the base string.  The source
maps over a `Record`, so keys are unique and no tie-break can fire. -/
def lePairKey (a b : String × String) : Bool :=
  jsLeStr a.1 b.1

/-- Order on parameter pairs by percent-encoded key, percent-encoded value
as tie-break — the ordering the specification text asks for. -/
def lePairEncoded (a b : String × String) : Bool :=
  if listLtNat (jsUnits (server.percentEncode a.1)) (jsUnits (server.percentEncode b.1)) then true
  else if listLtNat (jsUnits (server.percentEncode b.1)) (jsUnits (server.percentEncode a.1)) then false
  else jsLeStr (server.percentEncode a.2) (server.percentEncode b.2)

/-- The base string exactly as the specification sentence words it:
percent-encode each key and value, join each pair with `=`, sort the pairs
lexicographically by the ENCODED key (encoded value tie-break), join with
`&`, percent-encode the parameter string, and join with the uppercased
method and the encoded URL. -/
def specBaseStringEncodedSort (method url : String)
    (parameters : List (String × String)) : String :=
  let sortedPairs := sortLe lePairEncoded parameters
  let paramString := String.intercalate "&"
    (sortedPairs.map (fun p => server.percentEncode p.1 ++ "=" ++ server.percentEncode p.2))
  jsToUpperCase method ++ "&" ++ server.percentEncode url ++ "&" ++ server.percentEncode paramString

/-- The same specification wording amended at one point: the pairs are
sorted by the RAW key (as the code does), not by the encoded key. -/
def specBaseStringRawSort (method url : String)
    (parameters : List (String × String)) : String :=
  let sortedPairs := sortLe lePairKey parameters
  let paramString := String.intercalate "&"
    (sortedPairs.map (fun p => server.percentEncode p.1 ++ "=" ++ server.percentEncode p.2))
  jsToUpperCase method ++ "&" ++ server.percentEncode url ++ "&" ++ server.percentEncode paramString

/-- Left rotation of a 32-bit word held as a `Nat` below `2^32`. -/
def rotl32 (n x : Nat) : Nat :=
  ((x <<< n) ||| (x >>> (32 - n))) % 4294967296

/-- Big-endian bytes (most significant first) of `n`, `k` bytes wide. -/
def beBytes (k n : Nat) : List Nat :=
  (List.range k).map (fun i => (n >>> (8 * (k - 1 - i))) % 256)

/-- SHA-1 message padding: `0x80`, zeros to 56 mod 64, 64-bit bit length. -/
def sha1PadBytes (msg : List Nat) : List Nat :=
  msg ++ 128 :: List.replicate ((120 - (msg.length + 1) % 64) % 64) 0
      ++ beBytes 8 (msg.length * 8)

/-- Big-endian 32-bit words from a byte list. -/
def bytesToWords : List Nat → List Nat
  | a :: b :: c :: d :: rest =>
    (a * 16777216 + b * 65536 + c * 256 + d) :: bytesToWords rest
  | _ => []

/-- Split a list into 64-byte chunks (fuel-driven, fuel at least length). -/
def splitChunks : Nat → List Nat → List (List Nat)
  | 0, _ => []
  | _ + 1, [] => []
  | fuel + 1, l => l.take 64 :: splitChunks fuel (l.drop 64)

/-- SHA-1 message-schedule extension: append `n` more words, each the
1-rotation of the xor of the words 3, 8, 14 and 16 places back. -/
def sha1Extend : Nat → List Nat → List Nat
  | 0, ws => ws
  | n + 1, ws =>
    sha1Extend n (ws ++ [rotl32 1 (((ws.getD (ws.length - 3) 0) ^^^ ws.getD (ws.length - 8) 0) ^^^
      ((ws.getD (ws.length - 14) 0) ^^^ ws.getD (ws.length - 16) 0))])

/-- Bitwise complement within 32 bits. -/
def not32 (x : Nat) : Nat := 4294967295 ^^^ x

/-- The SHA-1 round function for round `t`. -/
def sha1F (t b c d : Nat) : Nat :=
  if t < 20 then (b &&& c) ||| (not32 b &&& d)
  else if t < 40 then (b ^^^ c) ^^^ d
  else if t < 60 then ((b &&& c) ||| (b &&& d)) ||| (c &&& d)
  else (b ^^^ c) ^^^ d

/-- The SHA-1 round constant for round `t`. -/
def sha1K (t : Nat) : Nat :=
  if t < 20 then 1518500249
  else if t < 40 then 1859775393
  else if t < 60 then 2400959708
  else 3395469782

/-- The 80 SHA-1 rounds over the extended schedule. -/
def sha1Rounds : List Nat → Nat → Nat × Nat × Nat × Nat × Nat → Nat × Nat × Nat × Nat × Nat
  | [], _, st => st
  | w :: ws, t, (a, b, c, d, e) =>
    let temp := (rotl32 5 a + sha1F t b c d + e + sha1K t + w) % 4294967296
    sha1Rounds ws (t + 1) (temp, a, rotl32 30 b, c, d)

/-- Process one 64-byte chunk into the running hash state. -/
def sha1Chunk (h : Nat × Nat × Nat × Nat × Nat) (chunk : List Nat) :
    Nat × Nat × Nat × Nat × Nat :=
  let ws := sha1Extend 64 (bytesToWords chunk)
  let (h0, h1, h2, h3, h4) := h
  let (a, b, c, d, e) := sha1Rounds ws 0 h
  ((h0 + a) % 4294967296, (h1 + b) % 4294967296, (h2 + c) % 4294967296,
   (h3 + d) % 4294967296, (h4 + e) % 4294967296)

/-- SHA-1 of a byte list, as a 20-byte digest. -/
def sha1 (msg : List Nat) : List Nat :=
  let padded := sha1PadBytes msg
  let (h0, h1, h2, h3, h4) := (splitChunks padded.length padded).foldl sha1Chunk
    (1732584193, 4023233417, 2562383102, 271733878, 3285377520)
  beBytes 4 h0 ++ beBytes 4 h1 ++ beBytes 4 h2 ++ beBytes 4 h3 ++ beBytes 4 h4

/-- HMAC-SHA1 (RFC 2104) with SHA-1 block size 64. -/
def hmacSha1 (key msg : List Nat) : List Nat :=
  let k0 := if key.length > 64 then sha1 key else key
  let kp := k0 ++ List.replicate (64 - k0.length) 0
  sha1 ((kp.map (fun b => 92 ^^^ b)) ++ sha1 ((kp.map (fun b => 54 ^^^ b)) ++ msg))

/-- The standard base64 alphabet. -/
def base64Chars : List Char :=
  "ABCDEFGHIJKLMNOPQRSTUVWXYZabcdefghijklmnopqrstuvwxyz0123456789+/".data

/-- Character of a base64 sextet. -/
def base64Digit (n : Nat) : Char := base64Chars.getD n 'A'

/-- Standard base64 encoding of a byte list, with `=` padding. -/
def base64Encode : List Nat → List Char
  | a :: b :: c :: rest =>
    let n := a * 65536 + b * 256 + c
    base64Digit (n / 262144) :: base64Digit ((n / 4096) % 64) ::
      base64Digit ((n / 64) % 64) :: base64Digit (n % 64) :: base64Encode rest
  | [a, b] =>
    let n := a * 65536 + b * 256
    [base64Digit (n / 262144), base64Digit ((n / 4096) % 64), base64Digit ((n / 64) % 64), '=']
  | [a] =>
    let n := a * 65536
    [base64Digit (n / 262144), base64Digit ((n / 4096) % 64), '=', '=']
  | [] => []

/-- Node's `crypto.createHmac("sha1", key).update(msg).digest("base64")`:
HMAC-SHA1 over the UTF-8 bytes of `msg` keyed by the UTF-8 bytes of `key`,
base64-encoded. -/
def hmacSha1Base64 (key msg : String) : String :=
  String.mk (base64Encode (hmacSha1 (strBytes key) (strBytes msg)))

/-- The persisted/in-memory configuration object (`FatSecretConfig` in both
entry points): required consumer credentials, optional user tokens. -/
structure FatSecretConfig where
  clientId : String
  clientSecret : String
  accessToken : Option String := none
  accessTokenSecret : Option String := none
  userId : Option String := none
deriving DecidableEq, Repr

/-- Ambient state a method of either class can reach: the mutable
`this.config` and the per-request nonce/timestamp generators.  Methods
whose bodies do not mention them simply ignore this record. -/
structure RunCtx where
  config : FatSecretConfig
  nonce : String
  timestamp : String

namespace cli

/-- `generateSignature` from src/cli.ts lines 151-165. -/
def generateSignature (method url : String) (parameters : List (String × String))
    (clientSecret : String) (tokenSecret : String := "") : String :=
  let baseString := createSignatureBaseString method url parameters
  let signingKey := createSigningKey clientSecret tokenSecret
  hmacSha1Base64 signingKey baseString

/-- `generateSignature` as a method: the embedding with the ambient class
state made explicit.  The body (src/cli.ts lines 151-165) reads none of
`this.config`, the nonce generator or the clock. -/
def generateSignatureM (_this : RunCtx) (method url : String)
    (parameters : List (String × String)) (clientSecret : String)
    (tokenSecret : String := "") : String :=
  let baseString := createSignatureBaseString method url parameters
  let signingKey := createSigningKey clientSecret tokenSecret
  hmacSha1Base64 signingKey baseString

end cli

namespace server

/-- `generateSignature` from src/server.ts lines 165-179 (verbatim duplicate
of the cli version). -/
def generateSignature (method url : String) (parameters : List (String × String))
    (clientSecret : String) (tokenSecret : String := "") : String :=
  let baseString := createSignatureBaseString method url parameters
  let signingKey := createSigningKey clientSecret tokenSecret
  hmacSha1Base64 signingKey baseString

/-- `generateSignature` as a method with the ambient class state explicit
(src/server.ts lines 165-179); the body reads none of it. -/
def generateSignatureM (_this : RunCtx) (method url : String)
    (parameters : List (String × String)) (clientSecret : String)
    (tokenSecret : String := "") : String :=
  let baseString := createSignatureBaseString method url parameters
  let signingKey := createSigningKey clientSecret tokenSecret
  hmacSha1Base64 signingKey baseString

end server

/-- JSON values as produced by `JSON.parse`.  Numbers keep their validated
lexeme: no claim in this development depends on numeric values, only on
whether a body parses as JSON at all. -/
inductive Json where
  | jnull : Json
  | jbool : Bool → Json
  | jnum : String → Json
  | jstr : String → Json
  | jarr : List Json → Json
  | jobj : List (String × Json) → Json

/-- JSON whitespace characters. -/
def isJsonWs (c : Char) : Bool :=
  c = ' ' || c = '\t' || c = '\n' || c = '\r'

/-- Drop leading JSON whitespace. -/
def skipWs (l : List Char) : List Char :=
  l.dropWhile isJsonWs

/-- Scan the body of a JSON string literal after the opening quote,
handling the escape sequences `JSON.parse` accepts and rejecting raw
control characters. -/
def scanJString : List Char → List Char → Option (String × List Char)
  | acc, '"' :: rest => some (String.mk acc.reverse, rest)
  | acc, '\\' :: e :: rest =>
    match e with
    | '"' => scanJString ('"' :: acc) rest
    | '\\' => scanJString ('\\' :: acc) rest
    | '/' => scanJString ('/' :: acc) rest
    | 'b' => scanJString (Char.ofNat 8 :: acc) rest
    | 'f' => scanJString (Char.ofNat 12 :: acc) rest
    | 'n' => scanJString ('\n' :: acc) rest
    | 'r' => scanJString ('\r' :: acc) rest
    | 't' => scanJString ('\t' :: acc) rest
    | 'u' =>
      match rest with
      | a :: b :: c :: d :: rest2 =>
        match hexVal? a, hexVal? b, hexVal? c, hexVal? d with
        | some ha, some hb, some hc, some hd =>
          let n := ((ha * 16 + hb) * 16 + hc) * 16 + hd
          -- surrogate halves are outside Lean's Char; map them to U+FFFD
          scanJString ((if 55296 ≤ n ∧ n < 57344 then Char.ofNat 65533 else Char.ofNat n) :: acc) rest2
        | _, _, _, _ => none
      | _ => none
    | _ => none
  | acc, c :: rest => if c.toNat < 32 then none else scanJString (c :: acc) rest
  | _, [] => none

/-- Digit test for the JSON number grammar. -/
def isDigitChar (c : Char) : Bool :=
  48 ≤ c.toNat ∧ c.toNat ≤ 57

/-- Scan a JSON number lexeme (`-? int frac? exp?`); returns the lexeme and
the remaining input. -/
def scanJNum (l : List Char) : Option (String × List Char) :=
  let (sign, l1) := match l with
    | '-' :: r => (['-'], r)
    | _ => (([] : List Char), l)
  let intPart := l1.takeWhile isDigitChar
  let l2 := l1.dropWhile isDigitChar
  if intPart.isEmpty then none
  else if intPart.length > 1 ∧ intPart.headD '0' = '0' then none
  else
    let (frac, l3) :=
      match l2 with
      | '.' :: r =>
        let ds := r.takeWhile isDigitChar
        if ds.isEmpty then (none, l2) else (some ('.' :: ds), r.dropWhile isDigitChar)
      | _ => (none, l2)
    match frac, l3 with
    | none, '.' :: _ => none
    | _, _ =>
      let (ex, l4) :=
        match l3 with
        | e :: r =>
          if e = 'e' ∨ e = 'E' then
            let (es, r1) := match r with
              | '+' :: r2 => (['+'], r2)
              | '-' :: r2 => (['-'], r2)
              | _ => (([] : List Char), r)
            let ds := r1.takeWhile isDigitChar
            if ds.isEmpty then (none, some l3) else (some (e :: es ++ ds), some (r1.dropWhile isDigitChar))
          else (none, some l3)
        | [] => (none, some l3)
      match l4 with
      | none => none
      | some l5 =>
        some (String.mk (sign ++ intPart ++ (frac.getD []) ++ (ex.getD [])), l5)

/-- Parser task: a plain value, or the tail of an array / object already
holding the elements parsed so far. -/
inductive JTask where
  | value : JTask
  | arrTail : List Json → JTask
  | objTail : List (String × Json) → JTask

/-- Fuel-driven JSON parser core (structural recursion on the fuel, so the
kernel can evaluate it). -/
def parseJ : Nat → JTask → List Char → Option (Json × List Char)
  | 0, _, _ => none
  | fuel + 1, .value, l =>
    match skipWs l with
    | 'n' :: 'u' :: 'l' :: 'l' :: r => some (.jnull, r)
    | 't' :: 'r' :: 'u' :: 'e' :: r => some (.jbool true, r)
    | 'f' :: 'a' :: 'l' :: 's' :: 'e' :: r => some (.jbool false, r)
    | '"' :: r => (scanJString [] r).map (fun p => (.jstr p.1, p.2))
    | '[' :: r =>
      (match skipWs r with
       | ']' :: r2 => some (.jarr [], r2)
       | r2 => parseJ fuel (.arrTail []) r2)
    | '{' :: r =>
      (match skipWs r with
       | '}' :: r2 => some (.jobj [], r2)
       | r2 => parseJ fuel (.objTail []) r2)
    | r => (scanJNum r).map (fun p => (.jnum p.1, p.2))
  | fuel + 1, .arrTail acc, l =>
    match parseJ fuel .value l with
    | none => none
    | some (v, r) =>
      match skipWs r with
      | ',' :: r2 => parseJ fuel (.arrTail (acc ++ [v])) r2
      | ']' :: r2 => some (.jarr (acc ++ [v]), r2)
      | _ => none
  | fuel + 1, .objTail acc, l =>
    match skipWs l with
    | '"' :: r =>
      match scanJString [] r with
      | none => none
      | some (k, r2) =>
        match skipWs r2 with
        | ':' :: r3 =>
          match parseJ fuel .value r3 with
          | none => none
          | some (v, r4) =>
            match skipWs r4 with
            | ',' :: r5 => parseJ fuel (.objTail (acc ++ [(k, v)])) r5
            | '}' :: r5 => some (.jobj (acc ++ [(k, v)]), r5)
            | _ => none
        | _ => none
    | _ => none

/-- The JavaScript builtin `JSON.parse`, as a total function returning
`none` where `JSON.parse` throws. -/
def jsonParse (s : String) : Option Json :=
  match parseJ (2 * s.data.length + 8) .value s.data with
  | some (v, r) => if (skipWs r).isEmpty then some v else none
  | none => none

/-- Tolerant percent-plus decoding used by `querystring.parse`: `+` becomes
a space, well-formed `%XX` becomes the byte `XX`, malformed escapes are
kept literally (this decoder never fails). -/
def qsDecodeChars : List Char → List Char
  | [] => []
  | '+' :: r => ' ' :: qsDecodeChars r
  | '%' :: a :: b :: r =>
    match hexVal? a, hexVal? b with
    | some x, some y => Char.ofNat (16 * x + y) :: qsDecodeChars r
    | _, _ => '%' :: qsDecodeChars (a :: b :: r)
  | c :: r => c :: qsDecodeChars r

/-- `querystring.unescape` composed with the `+`-to-space rule. -/
def qsUnescape (s : String) : String :=
  String.mk (qsDecodeChars s.data)

/-- Split a character list at every occurrence of `sep`. -/
def splitOnChar (sep : Char) : List Char → List (List Char)
  | [] => [[]]
  | c :: r =>
    let rest := splitOnChar sep r
    if c = sep then [] :: rest else (c :: rest.headD []) :: rest.tail

/-- Split a `k=v` piece at its first `=` (`a=b=c` keeps `b=c` as value; a
piece without `=` gets the empty value). -/
def splitFirstEq (part : List Char) : List Char × List Char :=
  let k := part.takeWhile (fun c => ¬ c = '=')
  let rest := part.dropWhile (fun c => ¬ c = '=')
  (k, rest.tail)

/-- The Node builtin `querystring.parse`, embedded as the flat list of
decoded key/value pairs in order (duplicate keys keep every occurrence;
the source reads single-valued fields). -/
def querystringParse (s : String) : List (String × String) :=
  (splitOnChar '&' s.data).filterMap (fun part =>
    if part.isEmpty then none
    else
      let kv := splitFirstEq part
      some (String.mk (qsDecodeChars kv.1), String.mk (qsDecodeChars kv.2)))

/-- A parsed HTTP response body: JSON if `JSON.parse` succeeds, otherwise
the form-decoded flat mapping. -/
inductive JsBody where
  | json : Json → JsBody
  | form : List (String × String) → JsBody

/-- `response.ok` of fetch: status in the 2xx range. -/
def fetchOk (status : Nat) : Bool :=
  200 ≤ status ∧ status ≤ 299

namespace cli

/-- Response handling of `makeOAuthRequest`, src/cli.ts lines 267-282:
non-ok status throws an error built from status and raw body; otherwise
JSON parse is attempted first with a form-decoding fallback. -/
def processOAuthResponse (status : Nat) (text : String) : Except String JsBody :=
  if ¬ fetchOk status then
    .error ("HTTP " ++ toString status ++ ": " ++ text)
  else
    match jsonParse text with
    | some j => .ok (.json j)
    | none => .ok (.form (querystringParse text))

end cli

namespace server

/-- Response handling of `makeOAuthRequest`, src/server.ts lines 279-292. -/
def processOAuthResponse (status : Nat) (text : String) : Except String JsBody :=
  if ¬ fetchOk status then
    .error ("OAuth error: " ++ toString status ++ " - " ++ text)
  else
    match jsonParse text with
    | some j => .ok (.json j)
    | none => .ok (.form (querystringParse text))

/-- Response handling of `makeApiRequest`, src/server.ts lines 348-361. -/
def processApiResponse (status : Nat) (text : String) : Except String JsBody :=
  if ¬ fetchOk status then
    .error ("FatSecret API error: " ++ toString status ++ " - " ++ text)
  else
    match jsonParse text with
    | some j => .ok (.json j)
    | none => .ok (.form (querystringParse text))

end server

/-- JavaScript truthiness of an optional string field: `undefined` and the
empty string are falsy. -/
def jsTruthy : Option String → Bool
  | none => false
  | some s => !(s = "")

/-- Template-literal rendering of a possibly-undefined string:
JavaScript interpolates `undefined` as the text `undefined`. -/
def jsInterp : Option String → String
  | none => "undefined"
  | some s => s

/-- Fields present (as strings) in a parsed credential file; mirrors the
optional shape of `FatSecretConfig` for shallow merging. -/
structure ConfigPatch where
  clientId? : Option String := none
  clientSecret? : Option String := none
  accessToken? : Option String := none
  accessTokenSecret? : Option String := none
  userId? : Option String := none
deriving DecidableEq, Repr

/-- Read a string-valued field of a JSON object. -/
def jstrField (fs : List (String × Json)) (k : String) : Option String :=
  match fs.lookup k with
  | some (.jstr s) => some s
  | _ => none

/-- The declared fields of `FatSecretConfig` found in a parsed credential
file (non-object JSON has no own enumerable string fields to spread). -/
def configPatchOfJson (j : Json) : ConfigPatch :=
  match j with
  | .jobj fs =>
    { clientId? := jstrField fs "clientId"
      clientSecret? := jstrField fs "clientSecret"
      accessToken? := jstrField fs "accessToken"
      accessTokenSecret? := jstrField fs "accessTokenSecret"
      userId? := jstrField fs "userId" }
  | _ => {}

/-- The shallow object merge `{ ...this.config, ...JSON.parse(configData) }`
restricted to the declared fields: a field present in the file overrides
the in-memory value. -/
def mergeConfig (c : FatSecretConfig) (p : ConfigPatch) : FatSecretConfig :=
  { clientId := p.clientId?.getD c.clientId
    clientSecret := p.clientSecret?.getD c.clientSecret
    accessToken := match p.accessToken? with | some v => some v | none => c.accessToken
    accessTokenSecret := match p.accessTokenSecret? with | some v => some v | none => c.accessTokenSecret
    userId := match p.userId? with | some v => some v | none => c.userId }

/-- The constructor-time configuration of both classes: consumer key and
secret from the process environment (`process.env.CLIENT_ID` /
`CLIENT_SECRET`), empty string when unset, no user tokens. -/
def defaultConfig (env : String → Option String) : FatSecretConfig :=
  { clientId := (env "CLIENT_ID").getD ""
    clientSecret := (env "CLIENT_SECRET").getD "" }

/-- `loadConfig` from src/cli.ts lines 53-60 and src/server.ts lines 75-82:
`fileRead` is the outcome of `fs.readFile` (`none` models a missing or
unreadable file); a read or parse failure is swallowed and the current
config kept, a parsed file is shallow-merged over it. -/
def loadConfig (current : FatSecretConfig) (fileRead : Option String) : FatSecretConfig :=
  match fileRead with
  | none => current
  | some data =>
    match jsonParse data with
    | none => current
    | some j => mergeConfig current (configPatchOfJson j)

/-- The MCP error codes the server uses. -/
inductive McpErrorCode where
  | invalidRequest : McpErrorCode
  | internalError : McpErrorCode
deriving DecidableEq, Repr

/-- Numeric value of an MCP error code (JSON-RPC codes used by the SDK). -/
def mcpCodeNum : McpErrorCode → Int
  | .invalidRequest => -32600
  | .internalError => -32603

/-- A thrown `McpError`. -/
structure McpErr where
  code : McpErrorCode
  message : String
deriving DecidableEq, Repr

/-- `error.message` of a thrown `McpError` as the SDK renders it. -/
def mcpErrorText (e : McpErr) : String :=
  "MCP error " ++ toString (mcpCodeNum e.code) ++ ": " ++ e.message

namespace cli

/-- The fixed authorize endpoint of src/cli.ts line 42. -/
def authorizeUrl : String := "https://authentication.fatsecret.com/oauth/authorize"

/-- The fixed API endpoint of src/cli.ts line 40. -/
def apiUrl : String := "https://platform.fatsecret.com/rest/server.api"

/-- Leg 1 of `runOAuthFlow`, src/cli.ts lines 395-426: given the parsed
request-token response (the token endpoints answer with form-encoded flat
mappings; field access is lookup), either fail because `oauth_token` or
`oauth_token_secret` is missing/falsy, or produce the authorize URL
`authorizeUrl?oauth_token=<token>`. -/
def runOAuthFlowLeg1 (response : List (String × String)) : Except String String :=
  let requestToken := response.lookup "oauth_token"
  let requestTokenSecret := response.lookup "oauth_token_secret"
  if ¬ (jsTruthy requestToken ∧ jsTruthy requestTokenSecret) then
    .error "Invalid response: missing token or token secret"
  else
    .ok (authorizeUrl ++ "?oauth_token=" ++ jsInterp requestToken)

/-- Leg 3 of `runOAuthFlow`, src/cli.ts lines 450-481: validates the
access-token response, then (only on success) writes the three credential
fields into `this.config` and persists it.  Returns the outcome together
with the final in-memory config and the config written to disk (if any). -/
def runOAuthFlowLeg3 (config : FatSecretConfig)
    (accessResponse : List (String × String)) :
    Except String Unit × FatSecretConfig × Option FatSecretConfig :=
  if ¬ (jsTruthy (accessResponse.lookup "oauth_token") ∧
        jsTruthy (accessResponse.lookup "oauth_token_secret")) then
    (.error "Invalid response from access token endpoint. Please try again.", config, none)
  else
    let c := { config with
      accessToken := accessResponse.lookup "oauth_token"
      accessTokenSecret := accessResponse.lookup "oauth_token_secret"
      userId := accessResponse.lookup "user_id" }
    (.ok (), c, some c)

end cli

namespace server

/-- The fixed authorize endpoint of src/server.ts line 53. -/
def authorizeUrl : String := "https://authentication.fatsecret.com/oauth/authorize"

/-- The fixed API endpoint of src/server.ts line 51. -/
def baseUrl : String := "https://platform.fatsecret.com/rest/server.api"

/-- The start branch of `handleAuthenticateFatSecret`, src/server.ts lines
806-829: credentials are stored and persisted, the request-token call is
made, and the authorize URL is built from `response.oauth_token` WITHOUT
any validation — a missing field is interpolated as `undefined`.  Returns
the tool outcome, the final in-memory config, and the persisted config. -/
def startOAuthLeg1 (config : FatSecretConfig) (clientId clientSecret : String)
    (response : List (String × String)) :
    Except McpErr String × FatSecretConfig × Option FatSecretConfig :=
  let c1 := { config with clientId := clientId, clientSecret := clientSecret }
  let authUrl := authorizeUrl ++ "?oauth_token=" ++ jsInterp (response.lookup "oauth_token")
  (.ok authUrl, c1, some c1)

/-- The completion branch of `handleAuthenticateFatSecret`, src/server.ts
lines 830-855: the access-token response fields are copied into
`this.config` and persisted WITHOUT any validation (missing fields are
stored as `undefined`), and the tool reports success. -/
def completeOAuthLeg3 (config : FatSecretConfig) (clientId clientSecret : String)
    (response : List (String × String)) :
    Except McpErr Unit × FatSecretConfig × Option FatSecretConfig :=
  let c1 := { config with clientId := clientId, clientSecret := clientSecret }
  let c2 := { c1 with
    accessToken := response.lookup "oauth_token"
    accessTokenSecret := response.lookup "oauth_token_secret"
    userId := response.lookup "user_id" }
  (.ok (), c2, some c2)

end server

/-- `o[k] = v` on a JavaScript object: update the existing entry in place,
or append a new one. -/
def jsSetKey (l : List (String × String)) (k v : String) : List (String × String) :=
  if (l.lookup k).isSome then
    l.map (fun p => if p.1 = k then (k, v) else p)
  else l ++ [(k, v)]

/-- The object spread `{ ...a, ...b }`: a's keys in order with b's values
where b overrides, then b's new keys in order. -/
def jsSpread (a b : List (String × String)) : List (String × String) :=
  a.map (fun p => match b.lookup p.1 with | some v => (p.1, v) | none => p) ++
    b.filter (fun p => (a.lookup p.1).isNone)

namespace cli

/-- The parameter-assembly phase of `makeApiRequest`, src/cli.ts lines
284-322: builds the OAuth parameter set, mutates the caller's `params` by
setting `format = "json"`, merges, signs, and adds the signature.  Returns
the caller's mapping after the mutation and the final signed parameter
set (the HTTP send itself carries no further parameter logic). -/
def makeApiRequestParams (config : FatSecretConfig) (nonce timestamp : String)
    (method : String) (params : List (String × String))
    (token tokenSecret : Option String) :
    List (String × String) × List (String × String) :=
  let oauthParams :=
    [("oauth_consumer_key", config.clientId), ("oauth_nonce", nonce),
     ("oauth_signature_method", "HMAC-SHA1"), ("oauth_timestamp", timestamp),
     ("oauth_version", "1.0")] ++
    (if jsTruthy token then [("oauth_token", token.getD "")] else [])
  let params2 := jsSetKey params "format" "json"
  let allParams := jsSpread params2 oauthParams
  let signature := generateSignature method apiUrl allParams config.clientSecret
    (tokenSecret.getD "")
  (params2, jsSetKey allParams "oauth_signature" signature)

end cli

namespace server

/-- The parameter-assembly phase of `makeApiRequest`, src/server.ts lines
294-333: like the cli version but the token comes from `this.config`
gated by `useAccessToken`. -/
def makeApiRequestParams (config : FatSecretConfig) (nonce timestamp : String)
    (method url : String) (params : List (String × String))
    (useAccessToken : Bool) :
    List (String × String) × List (String × String) :=
  let oauthParams :=
    [("oauth_consumer_key", config.clientId), ("oauth_nonce", nonce),
     ("oauth_signature_method", "HMAC-SHA1"), ("oauth_timestamp", timestamp),
     ("oauth_version", "1.0")] ++
    (if useAccessToken ∧ jsTruthy config.accessToken ∧ jsTruthy config.accessTokenSecret
     then [("oauth_token", config.accessToken.getD "")] else [])
  let params2 := jsSetKey params "format" "json"
  let allParams := jsSpread params2 oauthParams
  let tokenSecret := if useAccessToken then config.accessTokenSecret else none
  let signature := generateSignature method url allParams config.clientSecret
    (tokenSecret.getD "")
  (params2, jsSetKey allParams "oauth_signature" signature)

end server

/-- Parse a string of the exact shape `YYYY-MM-DD` (the regex
`^\d{4}-\d{2}-\d{2}$` plus digit extraction) into year, month, day. -/
def parseShapedDate (s : String) : Option (Nat × Nat × Nat) :=
  match s.data with
  | [y1, y2, y3, y4, h1, m1, m2, h2, d1, d2] =>
    if h1 = '-' ∧ h2 = '-' ∧ ([y1, y2, y3, y4, m1, m2, d1, d2].all isDigitChar) then
      some ((c2d y1) * 1000 + (c2d y2) * 100 + (c2d y3) * 10 + c2d y4,
            (c2d m1) * 10 + c2d m2, (c2d d1) * 10 + c2d d2)
    else none
  | _ => none
where c2d (c : Char) : Nat := c.toNat - 48

/-- `DayFromYear` of ECMA-262: day number of January 1 of `y`. -/
def dayFromYear (y : Int) : Int :=
  365 * (y - 1970) + (y - 1969).fdiv 4 - (y - 1901).fdiv 100 + (y - 1601).fdiv 400

/-- Gregorian leap-year test. -/
def isLeapYear (y : Nat) : Bool :=
  (y % 4 = 0 ∧ ¬ y % 100 = 0) ∨ y % 400 = 0

/-- Days before the first of month `m` (1-based) in a year. -/
def monthStartDays (leap : Bool) (m : Nat) : Nat :=
  [0, 31, 59, 90, 120, 151, 181, 212, 243, 273, 304, 334].getD (m - 1) 0 +
    (if leap ∧ 3 ≤ m then 1 else 0)

/-- `MakeDay`-style day count since 1970-01-01 for year/month/day numbers;
day values beyond the month's length roll over into the following month,
exactly as the engine's date arithmetic extrapolates. -/
def makeDayEpoch (y m d : Nat) : Int :=
  dayFromYear y + monthStartDays (isLeapYear y) m + ((d : Int) - 1)

/-- `new Date(s).getTime()` for a shape-valid `YYYY-MM-DD` string, per the
ECMA-262 date-time string format as V8 implements it: months 01-12 and
days 01-31 are accepted (day overflow extrapolates via `MakeDay`), any
other numbers make an invalid date (`NaN`, here `none`). -/
def jsDateParseMs (y m d : Nat) : Option Int :=
  if 1 ≤ m ∧ m ≤ 12 ∧ 1 ≤ d ∧ d ≤ 31 then
    some (86400000 * makeDayEpoch y m d)
  else none

/-- `dateToFatSecretFormat` from src/server.ts lines 96-127.  `dateString`
is the optional argument; `nowMs` is the clock reading `Date.now()` used
when the argument is omitted.  Malformed shapes and unparsable dates throw
`McpError(ErrorCode.InvalidRequest, ...)`; otherwise the result is the
decimal string of `floor(ms / 86400000)`. -/
def dateToFatSecretFormat (dateString : Option String) (nowMs : Int) :
    Except McpErr String :=
  match dateString with
  | some ds =>
    match parseShapedDate ds with
    | none =>
      .error ⟨.invalidRequest,
        "Invalid date format: " ++ ds ++ ". Expected format: YYYY-MM-DD"⟩
    | some (y, m, d) =>
      match jsDateParseMs y m d with
      | none => .error ⟨.invalidRequest, "Invalid date: " ++ ds⟩
      | some ms => .ok (toString (ms.fdiv 86400000))
  | none => .ok (toString (nowMs.fdiv 86400000))

/-- A real calendar date: the day exists in the given month (what the
specification calls a possible date). -/
def isRealCalendarDate (y m d : Nat) : Bool :=
  1 ≤ m ∧ m ≤ 12 ∧ 1 ≤ d ∧
    d ≤ monthStartDays (isLeapYear y) (m + 1) - monthStartDays (isLeapYear y) m

namespace server

/-- `handleGetDailyNutrition`, src/server.ts lines 698-714, up to the API
call: authentication gate, date conversion (whose `McpError` the
surrounding catch rewraps as an InternalError), then the parameter set
handed to `makeApiRequest`.  An `.ok` value is the request that reaches
the network layer; an `.error` means no network call is attempted. -/
def handleGetDailyNutrition (config : FatSecretConfig) (argsDate : Option String)
    (nowMs : Int) : Except McpErr (List (String × String)) :=
  if ¬ (jsTruthy config.accessToken ∧ jsTruthy config.accessTokenSecret) then
    .error ⟨.invalidRequest,
      "User authentication required. Please complete OAuth flow using authenticate_fatsecret first."⟩
  else
    match dateToFatSecretFormat argsDate nowMs with
    | .error e =>
      .error ⟨.internalError, "Failed to get daily nutrition: " ++ mcpErrorText e⟩
    | .ok date =>
      .ok [("method", "food_entries.get"), ("date", date), ("format", "json")]

end server

theorem mem_insertLe {le : α → α → Bool} {x a : α} {l : List α} :
    a ∈ insertLe le x l → a = x ∨ a ∈ l := by
  induction l with
  | nil => intro h; simp [insertLe] at h; exact Or.inl h
  | cons y ys ih =>
    intro h
    by_cases hle : le x y
    · simp [insertLe, hle] at h
      rcases h with h | h | h
      · exact Or.inl h
      · exact Or.inr (by simp [h])
      · exact Or.inr (by simp [h])
    · simp [insertLe, hle] at h
      rcases h with h | h
      · exact Or.inr (by simp [h])
      · rcases ih h with h1 | h1
        · exact Or.inl h1
        · exact Or.inr (by simp [h1])

theorem mem_sortLe {le : α → α → Bool} {a : α} {l : List α} :
    a ∈ sortLe le l → a ∈ l := by
  induction l with
  | nil => intro h; simp [sortLe] at h
  | cons x xs ih =>
    intro h
    rcases mem_insertLe h with h1 | h1
    · simp [h1]
    · exact List.mem_cons_of_mem x (ih h1)

theorem insertLe_pair_map (x v : String) (l : List String) (f : String → String × String)
    (hx : f x = (x, v)) (hfst : ∀ a, (f a).1 = a) :
    insertLe lePairKey (x, v) (l.map f) = (insertLe jsLeStr x l).map f := by
  induction l with
  | nil => simp [insertLe, hx]
  | cons a as ih =>
    have hkey : lePairKey (x, v) (f a) = jsLeStr x a := by
      simp [lePairKey, hfst a]
    by_cases hle : jsLeStr x a
    · simp [insertLe, hkey, hle, hx]
    · simp [insertLe, hkey, hle, ih]

theorem sortLe_pairs_eq_keys (ps : List (String × String)) (h : (ps.map Prod.fst).Nodup) :
    sortLe lePairKey ps =
      (sortLe jsLeStr (ps.map Prod.fst)).map (fun k => (k, (ps.lookup k).getD "")) := by
  induction ps with
  | nil => simp [sortLe]
  | cons p rest ih =>
    obtain ⟨k, v⟩ := p
    simp only [List.map_cons, List.nodup_cons] at h
    obtain ⟨hk, hrest⟩ := h
    have step1 : sortLe lePairKey ((k, v) :: rest) =
        insertLe lePairKey (k, v) (sortLe lePairKey rest) := rfl
    rw [step1, ih hrest]
    have hmaps : (sortLe jsLeStr (rest.map Prod.fst)).map (fun a => (a, (rest.lookup a).getD "")) =
        (sortLe jsLeStr (rest.map Prod.fst)).map (fun a => (a, (((k, v) :: rest).lookup a).getD "")) := by
      apply List.map_congr_left
      intro a ha
      have hamem : a ∈ rest.map Prod.fst := mem_sortLe ha
      have hane : ¬ (a == k) = true := by
        intro hbeq
        exact hk (by rw [← beq_iff_eq.mp hbeq]; exact hamem)
      simp [List.lookup_cons, hane]
    rw [hmaps]
    rw [insertLe_pair_map k v (sortLe jsLeStr (rest.map Prod.fst))
      (fun a => (a, (((k, v) :: rest).lookup a).getD ""))
      (by simp [List.lookup_cons]) (fun a => rfl)]
    rfl

/-- C1: The claim requires every leg-3 (access-token) execution with a
response lacking `oauth_token` or `oauth_token_secret` to fail with a
handshake error and leave the stored credentials untouched.  The console
flow (src/cli.ts lines 450-481) does exactly that, but the server's
completion branch of `handleAuthenticateFatSecret` (src/server.ts lines
830-855) performs no validation: at the failing input — a response
carrying only `oauth_token` — it reports success, overwrites the
in-memory credentials (erasing the previously stored access-token secret
and user id) and persists the partial credentials. -/
theorem claim_C1_theorem :
    server.completeOAuthLeg3
        ⟨"app-id", "app-secret", some "OLD-TOKEN", some "OLD-SECRET", some "OLD-USER"⟩
        "app-id" "app-secret" [("oauth_token", "NEW-TOKEN")] =
      (Except.ok (),
       ⟨"app-id", "app-secret", some "NEW-TOKEN", none, none⟩,
       some ⟨"app-id", "app-secret", some "NEW-TOKEN", none, none⟩) ∧
    cli.runOAuthFlowLeg3
        ⟨"app-id", "app-secret", some "OLD-TOKEN", some "OLD-SECRET", some "OLD-USER"⟩
        [("oauth_token", "NEW-TOKEN")] =
      (Except.error "Invalid response from access token endpoint. Please try again.",
       ⟨"app-id", "app-secret", some "OLD-TOKEN", some "OLD-SECRET", some "OLD-USER"⟩,
       none) :=
  ⟨rfl, rfl⟩

/-- C3: The claim requires every leg-1 (request-token) execution with a
response lacking `oauth_token` or `oauth_token_secret` to fail fatally in
both flows, producing no authorize URL and guessing no value.  The
console flow does fail; the server's start branch of
`handleAuthenticateFatSecret` (src/server.ts lines 806-829) performs no
validation and, on an empty response, succeeds with an authorize URL in
which the missing token is interpolated as the text `undefined`. -/
theorem claim_C3_theorem :
    server.startOAuthLeg1 ⟨"", "", none, none, none⟩ "app-id" "app-secret" [] =
      (Except.ok "https://authentication.fatsecret.com/oauth/authorize?oauth_token=undefined",
       ⟨"app-id", "app-secret", none, none, none⟩,
       some ⟨"app-id", "app-secret", none, none, none⟩) ∧
    cli.runOAuthFlowLeg1 [] = Except.error "Invalid response: missing token or token secret" :=
  ⟨rfl, rfl⟩

/-- C4: The two entry points implement the identical signing algorithm:
`percentEncode`, `createSignatureBaseString`, `createSigningKey` and
`generateSignature` of src/cli.ts agree with their src/server.ts
counterparts on all inputs. -/
theorem claim_C4_theorem :
    ∀ (method url : String) (parameters : List (String × String))
      (clientSecret tokenSecret s : String),
      cli.percentEncode s = server.percentEncode s ∧
      cli.createSignatureBaseString method url parameters =
        server.createSignatureBaseString method url parameters ∧
      cli.createSigningKey clientSecret tokenSecret =
        server.createSigningKey clientSecret tokenSecret ∧
      cli.generateSignature method url parameters clientSecret tokenSecret =
        server.generateSignature method url parameters clientSecret tokenSecret :=
  fun _ _ _ _ _ _ => ⟨rfl, rfl, rfl, rfl⟩

/-- C6: `generateSignature` is deterministic: embedded with the ambient
class state (config, nonce generator, clock) made explicit, two runs in
arbitrary different states yield the same signature for identical
(method, url, parameters, clientSecret, tokenSecret), and the result is
exactly HMAC-SHA1 of the base string keyed by the signing key,
base64-encoded — a function of those five inputs and nothing else. -/
theorem claim_C6_theorem :
    ∀ (st1 st2 : RunCtx) (method url : String) (parameters : List (String × String))
      (clientSecret tokenSecret : String),
      server.generateSignatureM st1 method url parameters clientSecret tokenSecret =
        server.generateSignatureM st2 method url parameters clientSecret tokenSecret ∧
      cli.generateSignatureM st1 method url parameters clientSecret tokenSecret =
        cli.generateSignatureM st2 method url parameters clientSecret tokenSecret ∧
      server.generateSignatureM st1 method url parameters clientSecret tokenSecret =
        hmacSha1Base64 (server.createSigningKey clientSecret tokenSecret)
          (server.createSignatureBaseString method url parameters) :=
  fun _ _ _ _ _ _ _ => ⟨rfl, rfl, rfl⟩

/-- C2 counterexample: the claim sorts pairs by the percent-encoded key,
but the code sorts the raw keys before encoding.  For the keys `-`
(unreserved, sorts after the escape of `?`) and `?` (encoded `%3F`), the
two orders differ, so `createSignatureBaseString` differs from the
claim's encoded-key-sorted base string at this input. -/
theorem claim_C2_counterexample :
    (([("-", "x"), ("?", "y")] : List (String × String)).map Prod.fst).Nodup ∧
    server.createSignatureBaseString "get" "u" [("-", "x"), ("?", "y")] ≠
      specBaseStringEncodedSort "get" "u" [("-", "x"), ("?", "y")] := by
  constructor
  · decide
  · decide

/-- C2 (amended): `createSignatureBaseString` returns the uppercased
method, the percent-encoded URL and the percent-encoded parameter string
joined by `&`, where the parameter string percent-encodes each key and
value, joins each pair with `=`, sorts the pairs lexicographically by the
RAW key (the mapping's keys are unique, so no tie-break can fire), and
joins the pairs with `&`. -/
theorem claim_C2_theorem (method url : String) (parameters : List (String × String))
    (h : (parameters.map Prod.fst).Nodup) :
    server.createSignatureBaseString method url parameters =
      specBaseStringRawSort method url parameters := by
  simp only [server.createSignatureBaseString, specBaseStringRawSort]
  rw [sortLe_pairs_eq_keys parameters h, List.map_map]
  rfl

/-- C2 witness: the amended theorem at a concrete two-entry mapping. -/
theorem claim_C2_witness :
    (([("b", "2"), ("a", "1")] : List (String × String)).map Prod.fst).Nodup ∧
    server.createSignatureBaseString "get" "https://ex.test/r" [("b", "2"), ("a", "1")] =
      specBaseStringRawSort "get" "https://ex.test/r" [("b", "2"), ("a", "1")] :=
  ⟨by decide, claim_C2_theorem "get" "https://ex.test/r" [("b", "2"), ("a", "1")] (by decide)⟩

set_option maxHeartbeats 1000000 in
theorem charMasterFacts : ∀ n : Nat, n < 128 →
    (32 ≤ n →
      ((isRfc3986Unreserved (Char.ofNat n) = true ∧
        strictEncodeChar (Char.ofNat n) = [Char.ofNat n] ∧ ¬ Char.ofNat n = '%') ∨
       (strictEncodeChar (Char.ofNat n) = ['%', hexDigitU (n / 16), hexDigitU (n % 16)] ∧
        hexVal? (hexDigitU (n / 16)) = some (n / 16) ∧
        hexVal? (hexDigitU (n % 16)) = some (n % 16)))) ∧
    jsReplaceBangList (encodeURIComponentChar (Char.ofNat n)) = strictEncodeChar (Char.ofNat n) := by
  decide

theorem percentDecodeBytes_strictChar (c : Char) (h1 : 32 ≤ c.toNat) (h2 : c.toNat ≤ 126)
    (rest : List Char) :
    percentDecodeBytes (strictEncodeChar c ++ rest) =
      (percentDecodeBytes rest).map (fun r => c.toNat :: r) := by
  have hm := charMasterFacts c.toNat (by omega)
  rw [Char.ofNat_toNat] at hm
  rcases hm.1 (by omega) with ⟨_, hse, hne⟩ | ⟨hse, hv1, hv2⟩
  · rw [hse]
    show percentDecodeBytes (c :: rest) = _
    rw [percentDecodeBytes.eq_def]
    simp only [if_neg hne]
  · rw [hse]
    show percentDecodeBytes ('%' :: hexDigitU (c.toNat / 16) :: hexDigitU (c.toNat % 16) :: rest) = _
    rw [percentDecodeBytes.eq_def]
    simp [hv1, hv2]
    have hid : c.toNat / 16 * 16 + c.toNat % 16 = c.toNat := by omega
    rw [hid]

theorem percentDecodeBytes_strictList (cs : List Char)
    (h : ∀ c ∈ cs, 32 ≤ c.toNat ∧ c.toNat ≤ 126) :
    percentDecodeBytes (strictEncodeList cs) = some (cs.map Char.toNat) := by
  induction cs with
  | nil => rfl
  | cons c cs ih =>
    have hc := h c (by simp)
    have hstep : strictEncodeList (c :: cs) = strictEncodeChar c ++ strictEncodeList cs := by
      simp [strictEncodeList]
    rw [hstep, percentDecodeBytes_strictChar c hc.1 hc.2,
      ih (fun x hx => h x (List.mem_cons_of_mem c hx))]
    rfl

theorem bytesToAscii_map_toNat (cs : List Char) (h : ∀ c ∈ cs, c.toNat < 128) :
    bytesToAscii (cs.map Char.toNat) = some cs := by
  induction cs with
  | nil => rfl
  | cons c cs ih =>
    have hc := h c (by simp)
    simp only [List.map_cons, bytesToAscii, if_pos hc,
      ih (fun x hx => h x (List.mem_cons_of_mem c hx))]
    simp [Char.ofNat_toNat]

theorem jsReplaceBangList_append (a b : List Char) :
    jsReplaceBangList (a ++ b) = jsReplaceBangList a ++ jsReplaceBangList b := by
  simp [jsReplaceBangList]

theorem jsReplaceBang_encodeURI (cs : List Char) (h : ∀ c ∈ cs, c.toNat < 128) :
    jsReplaceBangList (encodeURIComponentList cs) = strictEncodeList cs := by
  induction cs with
  | nil => rfl
  | cons c cs ih =>
    have hstep : encodeURIComponentList (c :: cs) =
        encodeURIComponentChar c ++ encodeURIComponentList cs := by
      simp [encodeURIComponentList]
    have hm := charMasterFacts c.toNat (h c (by simp))
    rw [Char.ofNat_toNat] at hm
    rw [hstep, jsReplaceBangList_append, hm.2,
      ih (fun x hx => h x (List.mem_cons_of_mem c hx))]
    simp [strictEncodeList]

set_option maxHeartbeats 1000000 in
theorem percentEncode_vs_uri_char : ∀ n : Nat, n < 128 →
    (bangChars.contains (Char.ofNat n) = true →
      server.percentEncode (String.mk [Char.ofNat n]) ≠
        encodeURIComponentStr (String.mk [Char.ofNat n])) ∧
    (bangChars.contains (Char.ofNat n) = false →
      server.percentEncode (String.mk [Char.ofNat n]) =
        encodeURIComponentStr (String.mk [Char.ofNat n])) := by
  decide

/-- C5: for every printable-ASCII string, decoding `percentEncode`'s output
with a standard percent-decoder reproduces the string; and per character,
`percentEncode` differs from the language-standard `encodeURIComponent`
exactly on `! ' ( ) *` (where it additionally escapes) and agrees on
every other printable-ASCII character. -/
theorem claim_C5_theorem (s : String) (h : ∀ c ∈ s.data, 32 ≤ c.toNat ∧ c.toNat ≤ 126) :
    percentDecode (server.percentEncode s) = some s ∧
    ∀ c : Char, 32 ≤ c.toNat → c.toNat ≤ 126 →
      (bangChars.contains c = true →
        server.percentEncode (String.mk [c]) ≠ encodeURIComponentStr (String.mk [c])) ∧
      (bangChars.contains c = false →
        server.percentEncode (String.mk [c]) = encodeURIComponentStr (String.mk [c])) := by
  constructor
  · show (percentDecodeBytes (jsReplaceBangList (encodeURIComponentList s.data))).bind _ = _
    rw [jsReplaceBang_encodeURI s.data (fun c hc => by have := h c hc; omega),
      percentDecodeBytes_strictList s.data h]
    show (bytesToAscii (s.data.map Char.toNat)).map String.mk = some s
    rw [bytesToAscii_map_toNat s.data (fun c hc => by have := h c hc; omega)]
    rfl
  · intro c h1 h2
    have := percentEncode_vs_uri_char c.toNat (by omega)
    rwa [Char.ofNat_toNat] at this

/-- C5 witness: the round-trip at a concrete printable-ASCII string that
contains spaces, additionally-escaped characters and unreserved ones. -/
theorem claim_C5_witness :
    percentDecode (server.percentEncode "Hello (World)! *a'~-_.") = some "Hello (World)! *a'~-_." := by
  have h := claim_C5_theorem "Hello (World)! *a'~-_." (by decide)
  exact h.1

theorem lookup_append (k2 : String) (l1 l2 : List (String × String)) :
    List.lookup k2 (l1 ++ l2) =
      match List.lookup k2 l1 with
      | some v => some v
      | none => List.lookup k2 l2 := by
  induction l1 with
  | nil => simp
  | cons a t ih =>
    obtain ⟨a1, a2⟩ := a
    by_cases h : k2 = a1
    · simp [List.lookup_cons, h]
    · simp [List.lookup_cons, h, beq_eq_false_iff_ne.mpr h, ih]

theorem lookup_map_set (l : List (String × String)) (k v k2 : String) :
    List.lookup k2 (l.map (fun p => if p.1 = k then (k, v) else p)) =
      if k2 = k then (l.lookup k).map (fun _ => v) else l.lookup k2 := by
  induction l with
  | nil => by_cases h : k2 = k <;> simp [h]
  | cons a t ih =>
    obtain ⟨a1, a2⟩ := a
    by_cases hak : a1 = k
    · subst hak
      by_cases hk2 : k2 = a1
      · subst hk2; simp [List.lookup_cons, ih]
      · simp [List.lookup_cons, hk2, beq_eq_false_iff_ne.mpr hk2, ih]
    · have hka1 : (k == a1) = false := beq_eq_false_iff_ne.mpr (fun hh => hak hh.symm)
      by_cases hk2 : k2 = a1
      · have hne : ¬ k2 = k := fun hh => hak ((hk2.symm).trans hh)
        simp [List.lookup_cons, hak, hk2, hne]
      · simp [List.lookup_cons, hak, hka1, beq_eq_false_iff_ne.mpr hk2, hk2, ih]

theorem lookup_jsSetKey (l : List (String × String)) (k v k2 : String) :
    List.lookup k2 (jsSetKey l k v) = if k2 = k then some v else List.lookup k2 l := by
  unfold jsSetKey
  by_cases hp : (l.lookup k).isSome
  · rw [if_pos hp, lookup_map_set]
    by_cases hk : k2 = k
    · rcases Option.isSome_iff_exists.mp hp with ⟨w, hw⟩
      simp [hk, hw]
    · simp [hk]
  · rw [if_neg hp, lookup_append]
    have hnone : l.lookup k = none := Option.not_isSome_iff_eq_none.mp hp
    by_cases hk : k2 = k
    · subst hk
      simp [hnone, List.lookup_cons]
    · cases hl : l.lookup k2 <;>
        simp [List.lookup_cons, hk, beq_eq_false_iff_ne.mpr hk, hl]

theorem lookup_jsSpread_preserve (a b : List (String × String)) (k v : String)
    (ha : a.lookup k = some v) (hb : b.lookup k = none) :
    (jsSpread a b).lookup k = some v := by
  unfold jsSpread
  rw [lookup_append]
  have hmap : List.lookup k
      (a.map (fun p => match b.lookup p.1 with | some w => (p.1, w) | none => p)) = some v := by
    induction a with
    | nil => simp at ha
    | cons p t ih =>
      obtain ⟨p1, p2⟩ := p
      by_cases h : k = p1
      · subst h
        simp only [List.lookup_cons, beq_self_eq_true] at ha
        simp [List.lookup_cons, hb, ha]
      · have hbeq : (k == p1) = false := beq_eq_false_iff_ne.mpr h
        simp only [List.lookup_cons, hbeq] at ha
        have hrec := ih ha
        cases hbp : b.lookup p1 <;> simp [List.lookup_cons, hbeq, hrec, hbp]
  rw [hmap]

/-- C7 counterexample: `2024-02-30` is not a real calendar date, yet
`dateToFatSecretFormat` accepts it and returns `19783` — the day count of
2024-03-01 — instead of rejecting it before the network layer. -/
theorem claim_C7_counterexample :
    isRealCalendarDate 2024 2 30 = false ∧
    dateToFatSecretFormat (some "2024-02-30") 0 = Except.ok "19783" :=
  ⟨rfl, rfl⟩

/-- C7 (amended): `dateToFatSecretFormat` maps every well-shaped
`YYYY-MM-DD` string with month 01-12 and day 01-31 to the decimal string
of its `MakeDay`-style days-since-epoch (a day beyond the month's real
length rolls over into the following month); in particular
`1970-01-01 ↦ 0` and `2024-01-01 ↦ 19723`.  When the argument is omitted
it returns the current date's days-since-epoch.  It rejects wrong-shaped
strings and month/day values outside those ranges (such as `2024-13-40`)
with an InvalidRequest error, and any such rejection makes
`handleGetDailyNutrition` fail before its network request is built. -/
theorem claim_C7_theorem (nowMs : Int) (config : FatSecretConfig) :
    (dateToFatSecretFormat (some "1970-01-01") nowMs = Except.ok "0" ∧
     dateToFatSecretFormat (some "2024-01-01") nowMs = Except.ok "19723" ∧
     dateToFatSecretFormat none nowMs = Except.ok (toString (nowMs.fdiv 86400000)) ∧
     dateToFatSecretFormat (some "2024-13-40") nowMs =
       Except.error ⟨.invalidRequest, "Invalid date: 2024-13-40"⟩) ∧
    (∀ s, parseShapedDate s = none →
      dateToFatSecretFormat (some s) nowMs =
        Except.error ⟨.invalidRequest,
          "Invalid date format: " ++ s ++ ". Expected format: YYYY-MM-DD"⟩) ∧
    (∀ s y m d, parseShapedDate s = some (y, m, d) →
      (1 ≤ m ∧ m ≤ 12 ∧ 1 ≤ d ∧ d ≤ 31 →
        dateToFatSecretFormat (some s) nowMs = Except.ok (toString (makeDayEpoch y m d))) ∧
      (¬ (1 ≤ m ∧ m ≤ 12 ∧ 1 ≤ d ∧ d ≤ 31) →
        dateToFatSecretFormat (some s) nowMs =
          Except.error ⟨.invalidRequest, "Invalid date: " ++ s⟩)) ∧
    (∀ dOpt e, dateToFatSecretFormat dOpt nowMs = Except.error e →
      ∃ e2, server.handleGetDailyNutrition config dOpt nowMs = Except.error e2) := by
  refine ⟨⟨rfl, rfl, rfl, rfl⟩, ?_, ?_, ?_⟩
  · intro s hs
    simp [dateToFatSecretFormat, hs]
  · intro s y m d hs
    constructor
    · intro hr
      simp only [dateToFatSecretFormat, hs, jsDateParseMs, if_pos hr]
      rw [Int.mul_fdiv_cancel_left _ (by decide)]
    · intro hr
      simp [dateToFatSecretFormat, hs, jsDateParseMs, if_neg hr]
  · intro dOpt e he
    by_cases hauth : jsTruthy config.accessToken ∧ jsTruthy config.accessTokenSecret
    · exact ⟨⟨.internalError, "Failed to get daily nutrition: " ++ mcpErrorText e⟩,
        by simp [server.handleGetDailyNutrition, hauth, he]⟩
    · exact ⟨⟨.invalidRequest,
        "User authentication required. Please complete OAuth flow using authenticate_fatsecret first."⟩,
        by simp [server.handleGetDailyNutrition, hauth]⟩

/-- C7 witness: the amended theorem applied at the shape-valid in-range
date `2024-02-29` and at the malformed shape `2024-1-1`. -/
theorem claim_C7_witness :
    dateToFatSecretFormat (some "2024-02-29") 0 = Except.ok (toString (makeDayEpoch 2024 2 29)) ∧
    dateToFatSecretFormat (some "2024-1-1") 0 =
      Except.error ⟨.invalidRequest,
        "Invalid date format: " ++ "2024-1-1" ++ ". Expected format: YYYY-MM-DD"⟩ :=
  ⟨((claim_C7_theorem 0 ⟨"", "", none, none, none⟩).2.2.1 "2024-02-29" 2024 2 29 rfl).1
      (by decide),
   (claim_C7_theorem 0 ⟨"", "", none, none, none⟩).2.1 "2024-1-1" rfl⟩

/-- C8: every non-2xx response makes the request executors fail with an
error carrying the numeric status and the raw body verbatim, and every
2xx response is JSON-parsed first with a form-decoding fallback, never
raising a parse error. -/
theorem claim_C8_theorem (status : Nat) (text : String) :
    (¬ fetchOk status = true →
      cli.processOAuthResponse status text =
        Except.error ("HTTP " ++ toString status ++ ": " ++ text) ∧
      server.processOAuthResponse status text =
        Except.error ("OAuth error: " ++ toString status ++ " - " ++ text) ∧
      server.processApiResponse status text =
        Except.error ("FatSecret API error: " ++ toString status ++ " - " ++ text)) ∧
    (fetchOk status = true →
      cli.processOAuthResponse status text =
        Except.ok (match jsonParse text with
          | some j => JsBody.json j
          | none => JsBody.form (querystringParse text)) ∧
      server.processOAuthResponse status text =
        Except.ok (match jsonParse text with
          | some j => JsBody.json j
          | none => JsBody.form (querystringParse text)) ∧
      server.processApiResponse status text =
        Except.ok (match jsonParse text with
          | some j => JsBody.json j
          | none => JsBody.form (querystringParse text))) := by
  constructor
  · intro h
    refine ⟨?_, ?_, ?_⟩ <;>
      simp only [cli.processOAuthResponse, server.processOAuthResponse,
        server.processApiResponse, if_pos h]
  · intro h
    have hcond : ¬ ¬ fetchOk status = true := by simp [h]
    refine ⟨?_, ?_, ?_⟩ <;>
    · simp only [cli.processOAuthResponse, server.processOAuthResponse,
        server.processApiResponse, if_neg hcond]
      cases jsonParse text <;> rfl

/-- C8 witness: the theorem applied at a failing status with a provider
error body, and at a 2xx status. -/
theorem claim_C8_witness :
    cli.processOAuthResponse 401 "Token rejected" =
      Except.error ("HTTP " ++ toString 401 ++ ": " ++ "Token rejected") ∧
    server.processOAuthResponse 200 "oauth_token=a&oauth_token_secret=b" =
      Except.ok (match jsonParse "oauth_token=a&oauth_token_secret=b" with
        | some j => JsBody.json j
        | none => JsBody.form (querystringParse "oauth_token=a&oauth_token_secret=b")) :=
  ⟨((claim_C8_theorem 401 "Token rejected").1 (by decide)).1,
   ((claim_C8_theorem 200 "oauth_token=a&oauth_token_secret=b").2 (by decide)).2.1⟩

/-- C9: a failed credential-file read (missing/unreadable file) or a failed
JSON parse is swallowed by `loadConfig`: the configuration stays exactly
the constructor defaults sourced from the environment; a successful read
shallow-merges the file's declared fields over those defaults. -/
theorem claim_C9_theorem (env : String → Option String) :
    loadConfig (defaultConfig env) none = defaultConfig env ∧
    (∀ data, jsonParse data = none →
      loadConfig (defaultConfig env) (some data) = defaultConfig env) ∧
    (∀ data j, jsonParse data = some j →
      loadConfig (defaultConfig env) (some data) =
        mergeConfig (defaultConfig env) (configPatchOfJson j)) := by
  refine ⟨rfl, ?_, ?_⟩
  · intro data h
    simp [loadConfig, h]
  · intro data j h
    simp [loadConfig, h]

/-- C9 witness: the theorem applied to an empty environment, an unparsable
file and a parsable file carrying an access token. -/
theorem claim_C9_witness :
    loadConfig (defaultConfig (fun _ => none)) (some "not json") = defaultConfig (fun _ => none) ∧
    loadConfig (defaultConfig (fun _ => none)) (some "\x7b\"accessToken\": \"T\"\x7d") =
      mergeConfig (defaultConfig (fun _ => none))
        (configPatchOfJson (Json.jobj [("accessToken", Json.jstr "T")])) :=
  ⟨(claim_C9_theorem (fun _ => none)).2.1 "not json" rfl,
   (claim_C9_theorem (fun _ => none)).2.2 "\x7b\"accessToken\": \"T\"\x7d"
     (Json.jobj [("accessToken", Json.jstr "T")]) rfl⟩

theorem lookup_format_signed (p2 oauthP : List (String × String)) (sig : String)
    (hp2 : p2.lookup "format" = some "json") (hoauth : oauthP.lookup "format" = none) :
    (jsSetKey (jsSpread p2 oauthP) "oauth_signature" sig).lookup "format" = some "json" := by
  rw [lookup_jsSetKey]
  rw [if_neg (by decide : ¬ ("format" : String) = "oauth_signature")]
  exact lookup_jsSpread_preserve _ _ _ _ hp2 hoauth

theorem lookup_format_oauth_base (ck nonce timestamp : String)
    (opt : List (String × String)) (hopt : opt.lookup "format" = none) :
    List.lookup "format"
      ([("oauth_consumer_key", ck), ("oauth_nonce", nonce),
        ("oauth_signature_method", "HMAC-SHA1"), ("oauth_timestamp", timestamp),
        ("oauth_version", "1.0")] ++ opt) = none := by
  rw [lookup_append]
  have hbase : List.lookup "format"
      [("oauth_consumer_key", ck), ("oauth_nonce", nonce),
       ("oauth_signature_method", "HMAC-SHA1"), ("oauth_timestamp", timestamp),
       ("oauth_version", "1.0")] = none := rfl
  rw [hbase]
  exact hopt

/-- C10: both `makeApiRequest` implementations mutate the caller's
business-parameter mapping in place, unconditionally setting its `format`
entry to `json` (overwriting any caller-supplied value) before signing,
leaving every other entry unchanged; and the final signed parameter set
of every API request maps `format` to `json`. -/
theorem claim_C10_theorem (config : FatSecretConfig) (nonce timestamp method url : String)
    (params : List (String × String)) (useAccessToken : Bool)
    (token tokenSecret : Option String) :
    ((server.makeApiRequestParams config nonce timestamp method url params
        useAccessToken).1.lookup "format" = some "json" ∧
     (∀ k2, ¬ k2 = "format" →
       (server.makeApiRequestParams config nonce timestamp method url params
          useAccessToken).1.lookup k2 = params.lookup k2) ∧
     (server.makeApiRequestParams config nonce timestamp method url params
        useAccessToken).2.lookup "format" = some "json") ∧
    ((cli.makeApiRequestParams config nonce timestamp method params
        token tokenSecret).1.lookup "format" = some "json" ∧
     (∀ k2, ¬ k2 = "format" →
       (cli.makeApiRequestParams config nonce timestamp method params
          token tokenSecret).1.lookup k2 = params.lookup k2) ∧
     (cli.makeApiRequestParams config nonce timestamp method params
        token tokenSecret).2.lookup "format" = some "json") := by
  refine ⟨⟨?_, ?_, ?_⟩, ?_, ?_, ?_⟩
  · show (jsSetKey params "format" "json").lookup "format" = some "json"
    rw [lookup_jsSetKey]
    simp
  · intro k2 hk2
    show (jsSetKey params "format" "json").lookup k2 = params.lookup k2
    rw [lookup_jsSetKey, if_neg hk2]
  · exact lookup_format_signed _ _ _
      (by rw [lookup_jsSetKey]; simp)
      (lookup_format_oauth_base _ _ _ _ (by split <;> rfl))
  · show (jsSetKey params "format" "json").lookup "format" = some "json"
    rw [lookup_jsSetKey]
    simp
  · intro k2 hk2
    show (jsSetKey params "format" "json").lookup k2 = params.lookup k2
    rw [lookup_jsSetKey, if_neg hk2]
  · exact lookup_format_signed _ _ _
      (by rw [lookup_jsSetKey]; simp)
      (lookup_format_oauth_base _ _ _ _ (by split <;> rfl))

/-- C10 witness: the theorem at a concrete mapping that already carries a
caller-supplied `format=xml`, which the mutation overwrites. -/
theorem claim_C10_witness :
    (server.makeApiRequestParams ⟨"ck", "cs", some "at", some "as", none⟩ "N" "T" "GET"
        server.baseUrl [("method", "foods.search"), ("format", "xml")] true).1.lookup "format" =
      some "json" ∧
    (server.makeApiRequestParams ⟨"ck", "cs", some "at", some "as", none⟩ "N" "T" "GET"
        server.baseUrl [("method", "foods.search"), ("format", "xml")] true).1.lookup "method" =
      List.lookup "method" [("method", "foods.search"), ("format", "xml")] :=
  by
  have h := claim_C10_theorem ⟨"ck", "cs", some "at", some "as", none⟩ "N" "T" "GET"
    server.baseUrl [("method", "foods.search"), ("format", "xml")] true none none
  exact ⟨h.1.1, h.1.2.1 "method" (by decide)⟩
